import Mathlib

/-!
Verification of the flashcards study app (`src/flashcards.py`).

The quiz core consists of three parts:
* `find_decks` scans a directory for deck files (`.json`, case-insensitively),
  returning a sorted list of full paths, or `[]` when the directory is absent;
* `load_deck` parses a deck file into a title and a card list, failing when the
  file cannot be read or parsed, or when it contains no cards, and shuffles the
  cards once on success;
* class `Flashcards` is the session state machine with operations `current`,
  `has_next`, `check`, `next` and `reset_for_review`.

The embedding below models the filesystem of `find_decks` by an existence flag
and a directory listing, the parse step of `load_deck` by an `Except` value,
and Python's in-place `random.shuffle` by an explicit function argument that is
assumed to permute its input (`IsShuffle`).  Python's raising list indexing is
modelled by `Option`, and a method that can raise returns `Option` of its
(result, new state) pair.
-/

/-- A flashcard record, as stored in a deck file: a question, the choice texts,
the stored answer and an optional explanation text.  Python compares cards by
value equality of the dictionaries; here that is structural equality. -/
structure Card where
  question : String
  choices : List String
  answer : String
  explanationText : Option String
deriving DecidableEq

/-- `find_decks(directory)`: if the directory does not exist, return `[]`;
otherwise sort the full paths `os.path.join(directory, f)` of the entries `f`
whose lowercased name ends in `".json"`.  The filesystem is modelled by the
flag `isdir` (does the directory exist?) and the listing `listdir`
(`os.listdir(directory)`). -/
def find_decks (isdir : Bool) (listdir : List String) (directory : String) : List String :=
  if !isdir then []
  else
    ((listdir.filter (fun f => (f.toLower).endsWith ".json")).map
      (fun f => directory ++ "/" ++ f)).mergeSort (fun a b => decide (a ≤ b))

/-- The parsed top level of a deck file: optional `title` and `cards` fields
(`data.get` returns the default when the field is absent, modelled by
`Option`). -/
structure DeckData where
  title : Option String
  cards : Option (List Card)

/-- A shuffle stands in for Python's `random.shuffle`: it may be any function
that permutes its input list. -/
def IsShuffle (shuffle : List Card → List Card) : Prop :=
  ∀ l : List Card, (shuffle l).Perm l

/-- `load_deck(path)`: reading and JSON-parsing the file is modelled by the
`parsed` argument; any exception there is re-raised as
`RuntimeError("Failed to load deck ...")`.  The title defaults to
`"Untitled Deck"`, the card list to `[]`; an empty card list raises
`RuntimeError("Deck contains no cards.")`; otherwise the cards are shuffled
once and returned with the title. -/
def load_deck (parsed : Except String DeckData) (shuffle : List Card → List Card) :
    Except String (String × List Card) :=
  match parsed with
  | Except.error e => Except.error ("Failed to load deck: " ++ e)
  | Except.ok data =>
      let title := data.title.getD "Untitled Deck"
      let cards := data.cards.getD []
      if cards = [] then Except.error "Deck contains no cards."
      else Except.ok (title, shuffle cards)

/-- The session state: the working card list, current index, score, the total
recorded at session start, and the missed cards collected so far.  These are
exactly the attributes of class `Flashcards`. -/
structure Flashcards where
  cards : List Card
  index : Nat
  score : Nat
  total : Nat
  missed_cards : List Card
deriving DecidableEq

/-- `Flashcards.__init__(cards)`: copy the card list, start at index 0 with
score 0, record `total = len(cards)`, and start with no missed cards. -/
def Flashcards.init (cards : List Card) : Flashcards :=
  { cards := cards, index := 0, score := 0, total := cards.length, missed_cards := [] }

/-- `Flashcards.current()`: `self.cards[self.index]`.  Python raises
`IndexError` when the index is out of range; here that is `none`. -/
def Flashcards.current (s : Flashcards) : Option Card :=
  s.cards[s.index]?

/-- `Flashcards.has_next()`: `self.index < len(self.cards)`.  Note the code
compares against the length of the working list, not against `self.total`. -/
def Flashcards.has_next (s : Flashcards) : Bool :=
  s.index < s.cards.length

/-- `Flashcards.check(selected)`: if the selection equals the current card's
`answer`, increment the score and return `True`; otherwise append the current
card to `missed_cards` unless it is already present (by value equality) and
return `False`.  The call `self.current()` raises when the session is
complete, hence the `Option`. -/
def Flashcards.check (s : Flashcards) (selected : String) : Option (Bool × Flashcards) :=
  match s.current with
  | none => none
  | some c =>
      if selected = c.answer then
        some (true, { s with score := s.score + 1 })
      else
        some (false, { s with missed_cards :=
          if c ∈ s.missed_cards then s.missed_cards else s.missed_cards ++ [c] })

/-- `Flashcards.next()`: `self.index += 1`. -/
def Flashcards.next (s : Flashcards) : Flashcards :=
  { s with index := s.index + 1 }

/-- `Flashcards.reset_for_review()`: the working list becomes a copy of
`missed_cards`, shuffled in place; `missed_cards` is cleared, index and score
reset to 0, and `total` set to the length of the new working list. -/
def Flashcards.reset_for_review (s : Flashcards) (shuffle : List Card → List Card) :
    Flashcards :=
  let newCards := shuffle s.missed_cards
  { cards := newCards, index := 0, score := 0, total := newCards.length, missed_cards := [] }

/-- The state reached after a `check` call, ignoring the returned boolean (in
Python, `check` mutates `self`); when `check` raises, the state is unchanged. -/
def Flashcards.checkState (s : Flashcards) (selected : String) : Flashcards :=
  match s.check selected with
  | some p => p.2
  | none => s

/-- A sample card used in concrete witness states. -/
def cardA : Card :=
  { question := "q1", choices := ["a", "b"], answer := "a", explanationText := none }

/-- A second sample card. -/
def cardB : Card :=
  { question := "q2", choices := ["c", "d"], answer := "c", explanationText := none }

/-- Inversion for `check`: a successful call exposes the current card and the
two branches of the method. -/
lemma Flashcards.check_inv {s : Flashcards} {sel : String} {b : Bool} {s' : Flashcards}
    (h : s.check sel = some (b, s')) :
    ∃ c, s.current = some c ∧
      ((sel = c.answer ∧ b = true ∧ s' = { s with score := s.score + 1 }) ∨
       (sel ≠ c.answer ∧ b = false ∧
        s' = { s with missed_cards :=
          if c ∈ s.missed_cards then s.missed_cards else s.missed_cards ++ [c] })) := by
  unfold Flashcards.check at h
  cases hc : s.current with
  | none => rw [hc] at h; exact absurd h (by simp)
  | some c =>
      rw [hc] at h
      dsimp only at h
      refine ⟨c, rfl, ?_⟩
      by_cases hsel : sel = c.answer
      · left
        rw [if_pos hsel] at h
        simp only [Option.some.injEq, Prod.mk.injEq] at h
        exact ⟨hsel, h.1.symm, h.2.symm⟩
      · right
        rw [if_neg hsel] at h
        simp only [Option.some.injEq, Prod.mk.injEq] at h
        exact ⟨hsel, h.1.symm, h.2.symm⟩

/-- C1: if `hasNext()` and the submitted selection equals the current card's
stored answer, `check` returns `True`, increments the score by exactly 1, and
leaves `missed_cards` and the index unchanged. -/
theorem check_right_answer (s : Flashcards) (c : Card)
    (_hn : s.has_next = true) (hc : s.current = some c) :
    ∃ s', s.check c.answer = some (true, s') ∧ s'.score = s.score + 1 ∧
      s'.missed_cards = s.missed_cards ∧ s'.index = s.index := by
  refine ⟨{ s with score := s.score + 1 }, ?_, rfl, rfl, rfl⟩
  unfold Flashcards.check
  rw [hc]
  simp

/-- Witness for C1 at a concrete one-card session. -/
theorem check_right_answer_witness :
    ∃ s', (Flashcards.init [cardA]).check cardA.answer = some (true, s') ∧
      s'.score = (Flashcards.init [cardA]).score + 1 ∧
      s'.missed_cards = (Flashcards.init [cardA]).missed_cards ∧
      s'.index = (Flashcards.init [cardA]).index :=
  check_right_answer (Flashcards.init [cardA]) cardA (by decide) (by decide)

/-- A state in which the current card is already among the missed cards is a
fixed point of a wrong `check` of that card: the score, the index and (by the
dedup test) the missed list are unchanged. -/
lemma Flashcards.checkState_wrong_fixed {u : Flashcards} {c : Card} {sel : String}
    (hc : u.current = some c) (hw : sel ≠ c.answer) (hm : c ∈ u.missed_cards) :
    u.checkState sel = u := by
  unfold Flashcards.checkState Flashcards.check
  rw [hc]
  dsimp only
  rw [if_neg hw, if_pos hm]

/-- C2: if `hasNext()` and the submitted selection differs from the current
card's stored answer, `check` returns `False`, leaves the score and the index
unchanged, and after it (and after any number of further wrong submissions of
the same selection for this card) the card occurs in `missed_cards` exactly
once.  The hypothesis that `missed_cards` has no duplicates holds in every
reachable state (`Reachable.invariant`). -/
theorem check_wrong_answer (s : Flashcards) (c : Card) (sel : String)
    (_hn : s.has_next = true) (hc : s.current = some c) (hw : sel ≠ c.answer)
    (hnd : s.missed_cards.Nodup) :
    ∃ s', s.check sel = some (false, s') ∧ s'.score = s.score ∧ s'.index = s.index ∧
      ∀ n : Nat, ((fun t => t.checkState sel)^[n] s').missed_cards.count c = 1 := by
  refine ⟨{ s with missed_cards :=
    if c ∈ s.missed_cards then s.missed_cards else s.missed_cards ++ [c] }, ?_, rfl, rfl, ?_⟩
  · unfold Flashcards.check
    rw [hc]
    dsimp only
    rw [if_neg hw]
  · have hmem : c ∈ (if c ∈ s.missed_cards then s.missed_cards else s.missed_cards ++ [c]) := by
      by_cases h : c ∈ s.missed_cards
      · rw [if_pos h]; exact h
      · rw [if_neg h]; simp
    have hcount :
        (if c ∈ s.missed_cards then s.missed_cards else s.missed_cards ++ [c]).count c = 1 := by
      by_cases h : c ∈ s.missed_cards
      · rw [if_pos h]; exact List.count_eq_one_of_mem hnd h
      · rw [if_neg h]
        simp [List.count_append, List.count_eq_zero_of_not_mem h]
    have hcur : ({ s with missed_cards :=
        if c ∈ s.missed_cards then s.missed_cards else s.missed_cards ++ [c] } :
        Flashcards).current = some c := hc
    intro n
    rw [Function.iterate_fixed (Flashcards.checkState_wrong_fixed hcur hw hmem) n]
    exact hcount

/-- Witness for C2 at a concrete one-card session with a wrong selection. -/
theorem check_wrong_answer_witness :
    ∃ s', (Flashcards.init [cardA]).check "b" = some (false, s') ∧
      s'.score = (Flashcards.init [cardA]).score ∧
      s'.index = (Flashcards.init [cardA]).index ∧
      ∀ n : Nat, ((fun t => t.checkState "b")^[n] s').missed_cards.count cardA = 1 :=
  check_wrong_answer (Flashcards.init [cardA]) cardA "b"
    (by decide) (by decide) (by decide) (by decide)

/-- C3: `reset_for_review` sets `total` to the size of the previous missed
list, resets score and index to 0, clears the missed list, and the new
working sequence is a permutation of the previous missed list. -/
theorem reset_for_review_spec (s : Flashcards) (shuffle : List Card → List Card)
    (hs : IsShuffle shuffle) :
    (s.reset_for_review shuffle).total = s.missed_cards.length ∧
    (s.reset_for_review shuffle).score = 0 ∧
    (s.reset_for_review shuffle).index = 0 ∧
    (s.reset_for_review shuffle).missed_cards = [] ∧
    (s.reset_for_review shuffle).cards.Perm s.missed_cards :=
  ⟨(hs s.missed_cards).length_eq, rfl, rfl, rfl, hs s.missed_cards⟩

/-- Witness for C3 with the identity shuffle on a concrete session. -/
theorem reset_for_review_spec_witness :
    ((Flashcards.init [cardA]).reset_for_review id).total =
      (Flashcards.init [cardA]).missed_cards.length ∧
    ((Flashcards.init [cardA]).reset_for_review id).score = 0 ∧
    ((Flashcards.init [cardA]).reset_for_review id).index = 0 ∧
    ((Flashcards.init [cardA]).reset_for_review id).missed_cards = [] ∧
    ((Flashcards.init [cardA]).reset_for_review id).cards.Perm
      (Flashcards.init [cardA]).missed_cards :=
  reset_for_review_spec (Flashcards.init [cardA]) id (fun l => List.Perm.refl l)

/-- The session states reachable through the public operations: a fresh
session, a successful `check`, an `advance` (`next`), or a
`reset_for_review` with any permuting shuffle. -/
inductive Reachable : Flashcards → Prop
  | init (cards : List Card) : Reachable (Flashcards.init cards)
  | step_check (s : Flashcards) (sel : String) (b : Bool) (s' : Flashcards) :
      Reachable s → s.check sel = some (b, s') → Reachable s'
  | step_next (s : Flashcards) : Reachable s → Reachable s.next
  | step_reset (s : Flashcards) (shuffle : List Card → List Card) :
      IsShuffle shuffle → Reachable s → Reachable (s.reset_for_review shuffle)

/-- Every reachable state keeps `total` equal to the length of the working
list and keeps `missed_cards` free of duplicates. -/
lemma Reachable.invariant {s : Flashcards} (h : Reachable s) :
    s.total = s.cards.length ∧ s.missed_cards.Nodup := by
  induction h with
  | init cards => exact ⟨rfl, List.nodup_nil⟩
  | step_check s sel b s' _ hcheck ih =>
      obtain ⟨c, _, hcase | hcase⟩ := Flashcards.check_inv hcheck
      · rw [hcase.2.2]; exact ih
      · rw [hcase.2.2]
        refine ⟨ih.1, ?_⟩
        by_cases hm : c ∈ s.missed_cards
        · dsimp only; rw [if_pos hm]; exact ih.2
        · dsimp only; rw [if_neg hm]
          simp [List.nodup_append, ih.2, hm]
  | step_next s _ ih => exact ih
  | step_reset s shuffle hs _ _ =>
      exact ⟨rfl, List.nodup_nil⟩

/-- C4: in every reachable state, `hasNext()` is true iff `index < total`;
this rests on the invariant `total = len(cards)` (established by the
constructor and preserved by `check`, `next` and `reset_for_review`), since
the code itself compares `index` with `len(self.cards)`. -/
theorem has_next_iff_index_lt_total (s : Flashcards) (h : Reachable s) :
    s.has_next = true ↔ s.index < s.total := by
  rw [(Reachable.invariant h).1]
  unfold Flashcards.has_next
  exact decide_eq_true_iff

/-- Witness for C4 at a fresh concrete session. -/
theorem has_next_iff_index_lt_total_witness :
    (Flashcards.init [cardA]).has_next = true ↔
      (Flashcards.init [cardA]).index < (Flashcards.init [cardA]).total :=
  has_next_iff_index_lt_total (Flashcards.init [cardA]) (Reachable.init [cardA])

/-- Iterating `next` adds to the index and never touches the working list. -/
lemma next_iterate (s : Flashcards) (n : Nat) :
    (Flashcards.next^[n] s).index = s.index + n ∧ (Flashcards.next^[n] s).cards = s.cards := by
  induction n with
  | zero => exact ⟨rfl, rfl⟩
  | succ k ih =>
      rw [Function.iterate_succ_apply']
      refine ⟨?_, ih.2⟩
      show (Flashcards.next^[k] s).index + 1 = s.index + (k + 1)
      rw [ih.1]
      omega

/-- C5: starting from a fresh session over a deck of `total` cards, after
exactly `total` calls of `next`, `hasNext()` is false. -/
theorem advance_total_times_complete (cards : List Card) :
    (Flashcards.next^[(Flashcards.init cards).total] (Flashcards.init cards)).has_next
      = false := by
  have h := next_iterate (Flashcards.init cards) (Flashcards.init cards).total
  unfold Flashcards.has_next
  rw [h.1, h.2]
  simp [Flashcards.init]

/-- C6: `current()` is exactly the indexing `self.cards[self.index]`: it
yields a card precisely when `hasNext()` is true, and raises (is `none`)
when the index has passed the end of the working list. -/
theorem current_spec (s : Flashcards) :
    s.current = s.cards[s.index]? ∧ (s.current.isSome = true ↔ s.has_next = true) := by
  refine ⟨rfl, ?_⟩
  unfold Flashcards.current Flashcards.has_next
  rw [decide_eq_true_iff]
  constructor
  · intro h
    by_contra hlt
    rw [List.getElem?_eq_none (Nat.le_of_not_lt hlt)] at h
    simp at h
  · intro h
    rw [List.getElem?_eq_getElem h]
    rfl

/-- C7: `load_deck` fails when the file cannot be read or parsed, fails with
"Deck contains no cards." when the `cards` field is absent or empty, and on
success returns a non-empty card sequence. -/
theorem load_deck_spec (shuffle : List Card → List Card) (hs : IsShuffle shuffle) :
    (∀ e, load_deck (Except.error e) shuffle =
      Except.error ("Failed to load deck: " ++ e)) ∧
    (∀ t, load_deck (Except.ok ⟨t, none⟩) shuffle =
      Except.error "Deck contains no cards.") ∧
    (∀ t, load_deck (Except.ok ⟨t, some []⟩) shuffle =
      Except.error "Deck contains no cards.") ∧
    (∀ d t cs, load_deck (Except.ok d) shuffle = Except.ok (t, cs) → cs ≠ []) := by
  refine ⟨fun e => rfl, fun t => rfl, fun t => rfl, ?_⟩
  intro d t cs h
  unfold load_deck at h
  dsimp only at h
  by_cases hcs : d.cards.getD [] = []
  · rw [if_pos hcs] at h
    exact absurd h (by simp)
  · rw [if_neg hcs] at h
    simp only [Except.ok.injEq, Prod.mk.injEq] at h
    intro hnil
    apply hcs
    have hp := hs (d.cards.getD [])
    rw [h.2, hnil] at hp
    exact hp.symm.eq_nil

/-- Witness for C7: a parse failure and an empty deck with the identity
shuffle. -/
theorem load_deck_spec_witness :
    load_deck (Except.error "boom") id =
      Except.error ("Failed to load deck: " ++ "boom") ∧
    load_deck (Except.ok ⟨some "T", some []⟩) id =
      Except.error "Deck contains no cards." :=
  ⟨(load_deck_spec id (fun l => List.Perm.refl l)).1 "boom",
   (load_deck_spec id (fun l => List.Perm.refl l)).2.2.1 (some "T")⟩

/-- C8: when the directory does not exist, `find_decks` returns the empty
list; the function is total, so no exception can escape. -/
theorem find_decks_missing_dir (listdir : List String) (directory : String) :
    find_decks false listdir directory = [] := rfl

/-- C9: on an existing directory, `find_decks` returns exactly the listing
entries whose lowercased names end in ".json", each joined with the
directory (as a permutation, i.e. the same multiset of paths), and the
returned sequence is sorted. -/
theorem find_decks_existing_dir (listdir : List String) (directory : String) :
    (find_decks true listdir directory).Perm
      ((listdir.filter (fun f => (f.toLower).endsWith ".json")).map
        (fun f => directory ++ "/" ++ f)) ∧
    List.Pairwise (fun a b : String => a ≤ b) (find_decks true listdir directory) := by
  have hfd : find_decks true listdir directory =
      ((listdir.filter (fun f => (f.toLower).endsWith ".json")).map
        (fun f => directory ++ "/" ++ f)).mergeSort (fun a b => decide (a ≤ b)) := rfl
  rw [hfd]
  constructor
  · exact List.mergeSort_perm _ _
  · have h : List.Pairwise (fun a b : String => decide (a ≤ b) = true)
        (((listdir.filter (fun f => (f.toLower).endsWith ".json")).map
          (fun f => directory ++ "/" ++ f)).mergeSort (fun a b => decide (a ≤ b))) :=
      List.sorted_mergeSort
        (fun a b c hab hbc => by
          rw [decide_eq_true_iff] at hab hbc ⊢
          exact le_trans hab hbc)
        (fun a b => by
          rcases le_total a b with hab | hab <;> simp [hab])
        ((listdir.filter (fun f => (f.toLower).endsWith ".json")).map
          (fun f => directory ++ "/" ++ f))
    exact h.imp (fun hab => by rw [decide_eq_true_iff] at hab; exact hab)

/-- One transition of the session without a `reset_for_review`: a successful
`check` or a `next`. -/
inductive StepNR : Flashcards → Flashcards → Prop
  | step_check {s : Flashcards} (sel : String) {b : Bool} {s' : Flashcards} :
      s.check sel = some (b, s') → StepNR s s'
  | step_next (s : Flashcards) : StepNR s s.next

/-- A single non-reset step keeps the working list and never decreases the
index. -/
lemma StepNR.cards_index {s s' : Flashcards} (h : StepNR s s') :
    s'.cards = s.cards ∧ s.index ≤ s'.index := by
  cases h with
  | step_check sel hch =>
      obtain ⟨c, _, hcase | hcase⟩ := Flashcards.check_inv hch <;>
        rw [hcase.2.2] <;> exact ⟨rfl, le_refl _⟩
  | step_next => exact ⟨rfl, Nat.le_succ _⟩

/-- C10: along any sequence of `check` and `next` steps (no restart), the
working list is unchanged and the index never decreases; hence once
`hasNext()` is false it stays false, and a complete session never re-enters
the in-progress state without `reset_for_review`. -/
theorem complete_is_absorbing (s s' : Flashcards)
    (h : Relation.ReflTransGen StepNR s s') :
    s'.cards = s.cards ∧ s.index ≤ s'.index ∧
      (s.has_next = false → s'.has_next = false) := by
  induction h with
  | refl => exact ⟨rfl, le_refl _, fun hf => hf⟩
  | tail _ hbc ih =>
      obtain ⟨hcards, hidx⟩ := StepNR.cards_index hbc
      refine ⟨hcards.trans ih.1, le_trans ih.2.1 hidx, fun hfalse => ?_⟩
      have hb := ih.2.2 hfalse
      unfold Flashcards.has_next at hb ⊢
      rw [decide_eq_false_iff_not, not_lt] at hb ⊢
      rw [hcards]
      omega

/-- Witness for C10: the empty reflexive step sequence at a completed
session. -/
theorem complete_is_absorbing_witness :
    (Flashcards.init []).cards = (Flashcards.init []).cards ∧
    (Flashcards.init []).index ≤ (Flashcards.init []).index ∧
    ((Flashcards.init []).has_next = false → (Flashcards.init []).has_next = false) :=
  complete_is_absorbing (Flashcards.init []) (Flashcards.init [])
    Relation.ReflTransGen.refl
